import Mathlib

/-!
Shallow embedding of the `zcashd-walletdb-parser` crate's page/B-tree
decoding core (`util.rs`, `page.rs`, `leaf.rs`, `headers.rs`,
`entry/parser.rs`), with theorems settling the specification claims.

Bytes are modelled as `Nat`; every read from a buffer reduces modulo 256,
mirroring the `u8` type of the source.  Fallible Rust functions returning
`anyhow::Result` are embedded as `Except Err` (or `RResult` where an
out-of-bounds slice panic or a non-terminating loop is also reachable).
-/

namespace WalletDb

/-- Byte order, from `util.rs` (`enum Endian { Le, Be }`). -/
inductive Endian
  | Le
  | Be
deriving DecidableEq, Repr

/-- Error kinds.  The source reports errors as `anyhow` strings; each
constructor stands for one distinct `bail!`/`ensure!` site, named after the
spec's error taxonomy (§7).  The three lower/upper invariant `ensure!` sites
in `parse_page_header` all map to `headerInvariantViolation`, matching the
spec's single `HeaderInvariantViolation` kind. -/
inductive Err
  | shortPage
  | headerInvariantViolation
  | unexpectedPageType
  | truncatedOverflowChain
  | leafHeaderOOB
  | keyDataOOB
  | overflowRefOOB
  | unknownLeafItemKind (k : Nat)
  | notLeafPage
  | metaPageTooSmall
  | magicNotFound
  | implausiblePageSize
deriving DecidableEq, Repr

/-- Little-endian value of a list of bytes (each taken mod 256), least
significant byte first: the meaning of `uNN::from_le_bytes`. -/
def leVal : List Nat → Nat
  | [] => 0
  | b :: t => b % 256 + 256 * leVal t

/-- Embeds `u16e` from `util.rs`: read a `u16` from the first two bytes of
`b` in byte order `e` (`from_le_bytes` / `from_be_bytes`). -/
def u16e (e : Endian) (b : List Nat) : Nat :=
  match e with
  | .Le => leVal (b.take 2)
  | .Be => leVal ((b.take 2).reverse)

/-- Embeds `u32e` from `util.rs`. -/
def u32e (e : Endian) (b : List Nat) : Nat :=
  match e with
  | .Le => leVal (b.take 4)
  | .Be => leVal ((b.take 4).reverse)

/-- Embeds `u64e` from `util.rs`. -/
def u64e (e : Endian) (b : List Nat) : Nat :=
  match e with
  | .Le => leVal (b.take 8)
  | .Be => leVal ((b.take 8).reverse)

/-- Page type, from `page.rs`. -/
inductive PageType
  | Meta
  | Internal
  | Leaf
  | Overflow
  | Other (x : Nat)
deriving DecidableEq, Repr

/-- Embeds `impl From<u8> for PageType` (`page.rs`): derive the page type
from a single type byte (`from` is a Lean keyword, hence `ofByte`). -/
def PageType.ofByte (t : Nat) : PageType :=
  if t = 9 then .Meta
  else if t = 3 then .Internal
  else if t = 5 then .Leaf
  else if t = 4 then .Overflow
  else .Other t

/-- Embeds `PageType::code` (`page.rs`): the canonical Berkeley DB type
code of a page type. -/
def PageType.code : PageType → Nat
  | .Meta => 0x09
  | .Internal => 0x03
  | .Leaf => 0x02
  | .Overflow => 0x04
  | .Other x => x

/-- Embeds `PageType::from_flags` (`page.rs`): derive the page type from
the low 5 bits of the flags word (`flags & 0x1f` is `flags % 32`). -/
def PageType.from_flags (flags : Nat) : PageType :=
  if flags % 32 = 0x09 then .Meta
  else if flags % 32 = 0x03 then .Internal
  else if flags % 32 = 0x02 then .Leaf
  else if flags % 32 = 0x04 then .Overflow
  else .Other (flags % 32)

/-- Start of the per-page slot/payload area (`constants.rs`,
`BTDATAOFF`). -/
def BTDATAOFF : Nat := 28

/-- Page header, from `util.rs` (`struct PageHeader`). -/
structure PageHeader where
  lsn_file : Nat
  lsn_off : Nat
  pgno : Nat
  prev : Nat
  next : Nat
  flags : Nat
  lower : Nat
  upper : Nat
  nslots : Nat
  ptype : PageType
deriving DecidableEq, Repr

/-- Embeds `parse_page_header` (`util.rs`).  Reads the ten header fields,
derives the page type from the flags word, and for Leaf/Internal pages
enforces `28 ≤ lower ≤ upper ≤ page.len()` (deriving the slot count as
`(lower - 28) / 2`); other page types skip the invariant checks and get
`nslots = 0`. -/
def parse_page_header (page : List Nat) (endian : Endian) : Except Err PageHeader :=
  if page.length < 28 then .error .shortPage
  else
    let lsn_file := u32e endian page
    let lsn_off := u32e endian (page.drop 4)
    let pgno := u32e endian (page.drop 8)
    let prev := u32e endian (page.drop 12)
    let next := u32e endian (page.drop 16)
    let flags := u32e endian (page.drop 20)
    let lower := u16e endian (page.drop 24)
    let upper := u16e endian (page.drop 26)
    let ptype := PageType.from_flags flags
    if ptype = .Leaf ∨ ptype = .Internal then
      if 28 ≤ lower then
        if lower ≤ upper then
          if upper ≤ page.length then
            .ok { lsn_file, lsn_off, pgno, prev, next, flags, lower, upper,
                  nslots := (lower - 28) / 2, ptype }
          else .error .headerInvariantViolation
        else .error .headerInvariantViolation
      else .error .headerInvariantViolation
    else
      .ok { lsn_file, lsn_off, pgno, prev, next, flags, lower, upper,
            nslots := 0, ptype }

/-- The Btree magic constant `0x0005_3162` (`util.rs`). -/
def BTREE_MAGIC : Nat := 0x00053162

/-- Embeds `detect_endian` (`util.rs`): test both byte orders of the magic
at bytes 12..16; `none` models the source's `None`. -/
def detect_endian (buf : List Nat) : Option Endian :=
  if buf.length < 16 then none
  else if u32e .Le (buf.drop 12) = BTREE_MAGIC then some .Le
  else if u32e .Be (buf.drop 12) = BTREE_MAGIC then some .Be
  else none

/-- Btree meta page, from `headers.rs` (`struct BtreeMeta`); byte-array
fields are kept as lists. -/
structure BtreeMeta where
  endian : Endian
  lsn_file : Nat
  lsn_offset : Nat
  pgno : Nat
  magic : Nat
  version : Nat
  pagesize : Nat
  encrypt_alg : Nat
  p_type : PageType
  metaflags : Nat
  free : Nat
  last_pgno : Nat
  key_count : Nat
  record_count : Nat
  flags : Nat
  uid : List Nat
  minkey : Nat
  re_len : Nat
  re_pad : Nat
  root : Nat
  crypto_magic : Nat
  iv : List Nat
  chksum : List Nat
deriving DecidableEq, Repr

/-- Embeds `parse_btree_meta_page0` (`headers.rs`): bail if the buffer is
shorter than 512 bytes, then detect endianness (failure is the
magic-not-found error), then validate the page size, then extract the
fields at their fixed offsets. -/
def parse_btree_meta_page0 (page : List Nat) : Except Err BtreeMeta :=
  if page.length < 512 then .error .metaPageTooSmall
  else
    match detect_endian page with
    | none => .error .magicNotFound
    | some endian =>
      let pagesize := u32e endian (page.drop 20)
      if pagesize = 0 ∨ pagesize % 512 ≠ 0 then .error .implausiblePageSize
      else
        .ok {
          endian
          lsn_file := u32e endian page
          lsn_offset := u32e endian (page.drop 4)
          pgno := u32e endian (page.drop 8)
          magic := u32e endian (page.drop 12)
          version := u32e endian (page.drop 16)
          pagesize
          encrypt_alg := page.getD 24 0 % 256
          p_type := PageType.ofByte (page.getD 25 0 % 256)
          metaflags := page.getD 26 0 % 256
          free := u32e endian (page.drop 28)
          last_pgno := u32e endian (page.drop 32)
          key_count := u32e endian (page.drop 40)
          record_count := u32e endian (page.drop 44)
          flags := u32e endian (page.drop 48)
          uid := (page.drop 52).take 20
          minkey := u32e endian (page.drop 76)
          re_len := u32e endian (page.drop 80)
          re_pad := u32e endian (page.drop 84)
          root := u32e endian (page.drop 88)
          crypto_magic := if 464 ≤ page.length then u32e endian (page.drop 460) else 0
          iv := if 492 ≤ page.length then (page.drop 476).take 16 else List.replicate 16 0
          chksum := if 516 ≤ page.length then (page.drop 496).take 20 else List.replicate 20 0
        }

/-- Embeds `page_slice` (`util.rs`): `&all[i * ps .. (i + 1) * ps]`.  The
Rust slice expression panics when the end lies past the buffer; `none`
models that panic. -/
def page_slice (all : List Nat) (ps : Nat) (pgno : Nat) : Option (List Nat) :=
  if (pgno + 1) * ps ≤ all.length then some ((all.drop (pgno * ps)).take ps)
  else none

/-- Leaf entry payload, from `leaf.rs` (`enum LeafItem`). -/
inductive LeafItem
  | keyData (s : List Nat)
  | overflow (first_pg : Nat) (total_len : Nat)
deriving DecidableEq, Repr

/-- Parsed leaf entry, from `leaf.rs` (`struct ParsedLeafEntry`). -/
structure ParsedLeafEntry where
  deleted : Bool
  item : LeafItem
deriving DecidableEq, Repr

/-- Embeds `parse_leaf_entry` (`leaf.rs`).  The kind byte's high bit
(`kind_raw & 0x80`, i.e. `128 ≤ kind_raw` for a byte) is the deleted
marker; its low 7 bits (`kind_raw & 0x7F`, i.e. `kind_raw % 128`) select
inline (1) or overflow (3) form. -/
def parse_leaf_entry (page : List Nat) (off : Nat) (e : Endian) :
    Except Err ParsedLeafEntry :=
  if off + 3 ≤ page.length then
    let len := u16e e (page.drop off)
    let kind_raw := page.getD (off + 2) 0 % 256
    let deleted : Bool := decide (128 ≤ kind_raw)
    let kind := kind_raw % 128
    if kind = 1 then
      if off + 3 + len ≤ page.length then
        .ok { deleted, item := .keyData ((page.drop (off + 3)).take len) }
      else .error .keyDataOOB
    else if kind = 3 then
      if off + 4 + 8 ≤ page.length then
        .ok { deleted,
              item := .overflow (u32e e (page.drop (off + 4)))
                               (u32e e (page.drop (off + 8))) }
      else .error .overflowRefOOB
    else .error (.unknownLeafItemKind kind)
  else .error .leafHeaderOOB

/-- Overflow reference, from `entry/constants.rs` (`struct OverflowRef`). -/
structure OverflowRef where
  first_page : Nat
  total_len : Nat
deriving DecidableEq, Repr

/-- Outcome of an embedded Rust computation: a value, an error return, a
panic (out-of-bounds slice index), or non-termination of a loop. -/
inductive RResult (α : Type) where
  | ok (a : α)
  | err (e : Err)
  | panic
  | diverge
deriving DecidableEq, Repr

/-- Sequencing of embedded outcomes (`?` propagation plus panic/diverge
absorption). -/
def RResult.bind {α β : Type} : RResult α → (α → RResult β) → RResult β
  | .ok a, f => f a
  | .err e, _ => .err e
  | .panic, _ => .panic
  | .diverge, _ => .diverge

/-- Loop body of `read_overflow_chain` (`entry/parser.rs`), with an
explicit iteration budget.  Each step mirrors one iteration of the Rust
`while rem > 0` loop: slice the page (panic when out of bounds), parse its
header, require the Overflow type, append `min(rem, payload.len())` payload
bytes, then stop, fail on a zero `next`, or continue at `next`.
`diverge` is returned when the budget runs out; with the budget chosen in
`read_overflow_chain` this is reached exactly when the Rust loop runs
forever (that needs every step to contribute zero bytes, i.e. a page size
of exactly 28, and then a cycle of in-bounds overflow pages with nonzero
`next`, which the budget `total_len + all.length + 2` always outlasts in
the terminating cases: productive steps number at most `total_len`, and
zero-contribution chains revisit a page after at most `all.length`
steps). -/
def readGo (all : List Nat) (ps : Nat) (e : Endian) :
    Nat → Nat → Nat → List Nat → RResult (List Nat)
  | 0, _, _, _ => .diverge
  | fuel + 1, pg, rem, acc =>
    if rem = 0 then .ok acc
    else
      match page_slice all ps pg with
      | none => .panic
      | some page =>
        match parse_page_header page e with
        | .error er => .err er
        | .ok hdr =>
          if hdr.ptype = .Overflow then
            let payload := page.drop BTDATAOFF
            let tk := min rem payload.length
            let acc2 := acc ++ payload.take tk
            if rem - tk = 0 then .ok acc2
            else if hdr.next = 0 then .err .truncatedOverflowChain
            else readGo all ps e fuel hdr.next (rem - tk) acc2
          else .err .unexpectedPageType

/-- Embeds `read_overflow_chain` (`entry/parser.rs`): walk the chain from
`r.first_page` until `r.total_len` bytes are materialized. -/
def read_overflow_chain (all : List Nat) (ps : Nat) (e : Endian)
    (r : OverflowRef) : RResult (List Nat) :=
  readGo all ps e (r.total_len + all.length + 2) r.first_page r.total_len []

/-- Embeds `slot_abs_offsets` (`entry/parser.rs`): the absolute offsets
read from the slot array, one `u16` at each of `28, 30, …` below `lower`
(the iterator `(BTDATAOFF..lower).step_by(2)`). -/
def slot_abs_offsets (page : List Nat) (e : Endian) (lower : Nat) : List Nat :=
  (List.range' 28 ((lower - 28 + 1) / 2) 2).map fun i => u16e e (page.drop i)

/-- Materialization of one leaf item inside the pairing loop of
`leaf_pairs_on_page`: inline bytes are taken as-is, an overflow item is
read through `read_overflow_chain`. -/
def materializeItem (all : List Nat) (ps : Nat) (e : Endian) :
    LeafItem → RResult (List Nat)
  | .keyData s => .ok s
  | .overflow fp tl => read_overflow_chain all ps e ⟨fp, tl⟩

/-- The `for off in offs` loop of `leaf_pairs_on_page`
(`entry/parser.rs`): parse each slot's entry (an error voids the whole
page via `?`), skip deleted entries, hold the first non-deleted item as a
pending key, and on the next non-deleted item materialize key then value
and emit the pair.  A pending key left at the end is dropped. -/
def pairLoop (all : List Nat) (ps : Nat) (e : Endian) (page : List Nat) :
    List Nat → Option LeafItem → RResult (List (List Nat × List Nat))
  | [], _ => .ok []
  | off :: rest, pend =>
    match parse_leaf_entry page off e with
    | .error er => .err er
    | .ok entry =>
      if entry.deleted then pairLoop all ps e page rest pend
      else
        match pend with
        | none => pairLoop all ps e page rest (some entry.item)
        | some kitem =>
          (materializeItem all ps e kitem).bind fun key =>
            (materializeItem all ps e entry.item).bind fun val =>
              (pairLoop all ps e page rest none).bind fun out =>
                .ok ((key, val) :: out)

/-- Embeds `leaf_pairs_on_page` (`entry/parser.rs`).  The source first
requires a Leaf page, then collects the slot offsets (the source reads the
header fields it calls `entries` and `hf_offset`; on the lower/upper
header produced by `parse_page_header` these are the `lower` and `upper`
fields).  The source's validation loop over the offsets only prints a
diagnostic for each out-of-range offset — its `continue` affects no state
and the offending offsets are NOT removed — so the loop has no effect on
the result and the extraction loop runs over every offset. -/
def leaf_pairs_on_page (all : List Nat) (ps : Nat) (e : Endian)
    (page : List Nat) (hdr : PageHeader) :
    RResult (List (List Nat × List Nat)) :=
  if hdr.ptype = .Leaf then
    pairLoop all ps e page (slot_abs_offsets page e hdr.lower) none
  else .err .notLeafPage

/-- Embeds `read_compact_size` (`entry/parser.rs`): Bitcoin compact-size
decoding.  A first byte `0x00..=0xFC` is the literal value (1 byte
consumed); `0xFD`/`0xFE`/`0xFF` announce a little-endian `u16`/`u32`/`u64`
(3/5/9 bytes consumed); a buffer shorter than the announced width gives
`None`. -/
def read_compact_size (s : List Nat) : Option (Nat × Nat) :=
  match s with
  | [] => none
  | b0 :: _ =>
    let b := b0 % 256
    if b ≤ 0xfc then some (b, 1)
    else if b = 0xfd then
      if 3 ≤ s.length then some (u16e .Le (s.drop 1), 3) else none
    else if b = 0xfe then
      if 5 ≤ s.length then some (u32e .Le (s.drop 1), 5) else none
    else
      if 9 ≤ s.length then some (u64e .Le (s.drop 1), 9) else none

/-- Exactly `n` little-endian bytes of `v` (least significant first). -/
def leBytes : Nat → Nat → List Nat
  | 0, _ => []
  | n + 1, v => v % 256 :: leBytes n (v / 256)

/-- Modelled from the spec: the minimal-width compact-size encoder.  The
repository is read-only and contains no encoder; this follows the spec's
description (§6, §8): values up to `0xFC` are a single literal byte,
larger values get the smallest of the `0xFD`+u16, `0xFE`+u32, `0xFF`+u64
forms that holds them. -/
def encodeCompactSize (L : Nat) : List Nat :=
  if L ≤ 0xfc then [L]
  else if L ≤ 0xffff then 0xfd :: leBytes 2 L
  else if L ≤ 0xffffffff then 0xfe :: leBytes 4 L
  else 0xff :: leBytes 8 L

/-- Pair a list of materialized fields strictly by position — first with
second, third with fourth, … — dropping a trailing unpaired element.  This
is the shape the spec ascribes to leaf pairing (§4.4). -/
def pairUp {α : Type} : List α → List (α × α)
  | a :: b :: t => (a, b) :: pairUp t
  | _ => []

/-- Parse every slot offset of a page with `parse_leaf_entry`, failing on
the first error, exactly as the extraction loop's `?` does. -/
def parseAll (page : List Nat) (e : Endian) : List Nat → Except Err (List ParsedLeafEntry)
  | [] => .ok []
  | off :: rest =>
    match parse_leaf_entry page off e with
    | .error er => .error er
    | .ok en =>
      match parseAll page e rest with
      | .error er => .error er
      | .ok t => .ok (en :: t)

/-- Materialize a list of leaf items in order, failing on the first
fault. -/
def materializeAll (all : List Nat) (ps : Nat) (e : Endian) :
    List LeafItem → RResult (List (List Nat))
  | [] => .ok []
  | it :: t =>
    (materializeItem all ps e it).bind fun b =>
      (materializeAll all ps e t).bind fun bs => .ok (b :: bs)

/-- The page numbers `read_overflow_chain` reads, in order, following the
same control flow (and the same iteration budget) as `readGo`: the walk
stops after a page that fails to slice or parse, is not Overflow-typed,
satisfies the remaining length, or carries a zero `next`. -/
def chainVisited (all : List Nat) (ps : Nat) (e : Endian) :
    Nat → Nat → Nat → List Nat
  | 0, _, _ => []
  | fuel + 1, pg, rem =>
    if rem = 0 then []
    else
      pg ::
        (match page_slice all ps pg with
         | none => []
         | some page =>
           match parse_page_header page e with
           | .error _ => []
           | .ok hdr =>
             if hdr.ptype = .Overflow then
               let payload := page.drop BTDATAOFF
               let tk := min rem payload.length
               if rem - tk = 0 then []
               else if hdr.next = 0 then []
               else chainVisited all ps e fuel hdr.next (rem - tk)
             else [])

/-- The pages visited by `read_overflow_chain all ps e r`. -/
def chainV (all : List Nat) (ps : Nat) (e : Endian) (r : OverflowRef) : List Nat :=
  chainVisited all ps e (r.total_len + all.length + 2) r.first_page r.total_len

/-- Mirrors the control flow of `readGo`: `true` exactly when the walk
stops because a visited page's `next` pointer is zero while bytes are
still needed (the Rust `ensure!(hdr.next != 0, …)` failure). -/
def chainHitsZeroNext (all : List Nat) (ps : Nat) (e : Endian) :
    Nat → Nat → Nat → Bool
  | 0, _, _ => false
  | fuel + 1, pg, rem =>
    if rem = 0 then false
    else
      match page_slice all ps pg with
      | none => false
      | some page =>
        match parse_page_header page e with
        | .error _ => false
        | .ok hdr =>
          if hdr.ptype = .Overflow then
            let tk := min rem (page.drop BTDATAOFF).length
            if rem - tk = 0 then false
            else if hdr.next = 0 then true
            else chainHitsZeroNext all ps e fuel hdr.next (rem - tk)
          else false

/-- The parsed header of page `pg`, when the page is in bounds and its
header parses. -/
def headerAt (all : List Nat) (ps : Nat) (e : Endian) (pg : Nat) : Option PageHeader :=
  match page_slice all ps pg with
  | none => none
  | some page => (parse_page_header page e).toOption

/-- The payload region of page `pg`: its bytes from offset 28 up to the
page size. -/
def payloadAt (all : List Nat) (ps : Nat) (pg : Nat) : List Nat :=
  ((page_slice all ps pg).getD []).drop BTDATAOFF

/-- Whether page `pg` is in bounds, parses, and is Overflow-typed. -/
def overflowAt (all : List Nat) (ps : Nat) (e : Endian) (pg : Nat) : Bool :=
  match headerAt all ps e pg with
  | some hdr => decide (hdr.ptype = PageType.Overflow)
  | none => false

/-- The `next` pointer of page `pg`'s parsed header, when available. -/
def nextAt (all : List Nat) (ps : Nat) (e : Endian) (pg : Nat) : Option Nat :=
  (headerAt all ps e pg).map PageHeader.next

/-- Concrete 48-byte little-endian leaf page: `lower = 34` (three slots),
`upper = 40`; the slot array holds offsets `40`, `44`, `46`; offsets 40
and 44 hold the inline entries `[65]` and `[66]`, while offset 46 fails
the bounds check (`46 + 3 > 48`). -/
def c1Page : List Nat :=
  [0,0,0,0, 0,0,0,0, 1,0,0,0, 0,0,0,0, 0,0,0,0, 2,0,0,0, 34,0, 40,0,
   40,0, 44,0, 46,0,
   0,0,0,0,0,0,
   1,0,1,65, 1,0,1,66]

/-- The header `parse_page_header` yields for `c1Page`. -/
def c1Hdr : PageHeader :=
  { lsn_file := 0, lsn_off := 0, pgno := 1, prev := 0, next := 0,
    flags := 2, lower := 34, upper := 40, nslots := 3, ptype := .Leaf }

/-- Concrete 64-byte little-endian leaf page with six slots holding, in
slot order, the inline entries `k1 = [1]`, a deleted entry, `v1 = [2]`,
`k2 = [3]`, `v2 = [4]`, `k3 = [5]`. -/
def c2Page : List Nat :=
  [0,0,0,0, 0,0,0,0, 1,0,0,0, 0,0,0,0, 0,0,0,0, 2,0,0,0, 40,0, 40,0,
   40,0, 44,0, 48,0, 52,0, 56,0, 60,0,
   1,0,1,1, 1,0,129,9, 1,0,1,2, 1,0,1,3, 1,0,1,4, 1,0,1,5]

/-- The header `parse_page_header` yields for `c2Page`. -/
def c2Hdr : PageHeader :=
  { lsn_file := 0, lsn_off := 0, pgno := 1, prev := 0, next := 0,
    flags := 2, lower := 40, upper := 40, nslots := 6, ptype := .Leaf }

/-- Concrete 96-byte file image with page size 32: page 0 is unused,
pages 1 and 2 are Overflow-typed, page 1's `next` is 2, page 2's `next`
is 0, and their payload regions are `[10,11,12,13]` and `[20,21,22,23]`. -/
def c3All : List Nat :=
  (List.replicate 32 0) ++
  ([0,0,0,0, 0,0,0,0, 1,0,0,0, 0,0,0,0, 2,0,0,0, 4,0,0,0, 0,0, 0,0] ++ [10,11,12,13]) ++
  ([0,0,0,0, 0,0,0,0, 2,0,0,0, 0,0,0,0, 0,0,0,0, 4,0,0,0, 0,0, 0,0] ++ [20,21,22,23])

/-- C10: for an overflow reference with `total_len = 0`,
`read_overflow_chain` succeeds with the empty byte vector without
reading, type-checking, or bounds-checking any page, for every
`first_page` — including one past the end of the file image. -/
theorem c10_zero_total_len (all : List Nat) (ps : Nat) (e : Endian) (fp : Nat) :
    read_overflow_chain all ps e ⟨fp, 0⟩ = .ok [] := by
  simp only [read_overflow_chain]
  rw [show (⟨fp, 0⟩ : OverflowRef).total_len + all.length + 2
        = ((⟨fp, 0⟩ : OverflowRef).total_len + all.length + 1) + 1 from rfl]
  rw [readGo]
  simp

/-- C6: corrected — composed with `code`, the byte derivation and the
flags derivation of the page type agree on every 5-bit type code except
5, where the byte form yields `Leaf` (canonical code 0x02) while the
flags form yields `Other 5` (code 0x05); each derivation maps its own
variant's leaf code to `Leaf` (0x05 for the byte form, 0x02 for the flags
form). -/
theorem c6_page_type_codes :
    (∀ t : Nat, t < 32 → t ≠ 5 →
        (PageType.ofByte t).code = (PageType.from_flags t).code)
    ∧ PageType.ofByte 5 = .Leaf ∧ PageType.from_flags 5 = .Other 5
    ∧ PageType.from_flags 2 = .Leaf ∧ PageType.ofByte 2 = .Other 2 := by
  decide

/-- C6: counterexample — at type code 5 the two derivations do not map to
the same canonical code: the byte form gives 2, the flags form gives 5. -/
theorem c6_counterexample :
    (PageType.ofByte 5).code = 2 ∧ (PageType.from_flags 5).code = 5 ∧
      (PageType.ofByte 5).code ≠ (PageType.from_flags 5).code := by
  decide

/-- C6: witness — the amended agreement instantiated at type code 3. -/
theorem c6_witness :
    (3 : Nat) < 32 ∧ (3 : Nat) ≠ 5 ∧
      (PageType.ofByte 3).code = (PageType.from_flags 3).code :=
  ⟨by decide, by decide, c6_page_type_codes.1 3 (by decide) (by decide)⟩

/-- C5: corrected (amended) — for a page number lying past the end of the
file image, `page_slice` is an out-of-bounds slice, i.e. a panic rather
than an error return, and `read_overflow_chain` with a positive
`total_len` panics the same way on its first iteration instead of
reporting a bounds error. -/
theorem c5_out_of_bounds_page_panics (all : List Nat) (ps pgno : Nat)
    (h : all.length < (pgno + 1) * ps) :
    page_slice all ps pgno = none ∧
      ∀ (e : Endian) (tl : Nat), 0 < tl →
        read_overflow_chain all ps e ⟨pgno, tl⟩ = .panic := by
  have hps : page_slice all ps pgno = none := by
    simp only [page_slice, ite_eq_right_iff]
    intro hle
    omega
  refine ⟨hps, ?_⟩
  intro e tl htl
  simp only [read_overflow_chain]
  rw [show (⟨pgno, tl⟩ : OverflowRef).total_len + all.length + 2
        = ((⟨pgno, tl⟩ : OverflowRef).total_len + all.length + 1) + 1 from rfl]
  rw [readGo]
  simp only [hps]
  rw [if_neg (by omega)]

/-- C5: counterexample — with a 64-byte image of page size 64, reading an
overflow reference that names page 5 panics (out-of-bounds slice), and
`page_slice` itself is the out-of-bounds access; no error is reported. -/
theorem c5_counterexample :
    read_overflow_chain (List.replicate 64 0) 64 .Le ⟨5, 1⟩ = .panic ∧
      page_slice (List.replicate 64 0) 64 5 = none := by
  decide

/-- C5: witness — the amended statement instantiated on the 64-byte
image. -/
theorem c5_witness :
    (List.replicate 64 0).length < (5 + 1) * 64 ∧
      page_slice (List.replicate 64 0) 64 5 = none ∧
      read_overflow_chain (List.replicate 64 0) 64 .Le ⟨5, 1⟩ = .panic :=
  ⟨by decide, (c5_out_of_bounds_page_panics _ _ _ (by decide)).1,
    (c5_out_of_bounds_page_panics _ _ _ (by decide)).2 .Le 1 (by decide)⟩

/-- C7: corrected (amended) — a buffer of at least 16 bytes holding the
Btree magic at bytes 12..16 in little-endian order detects as
little-endian, and in big-endian order as big-endian; a buffer of at
least 512 bytes with the magic in neither order fails meta-page probing
with the magic-not-found error; but a buffer shorter than 512 bytes fails
probing with the too-small error before the magic is ever examined
(`detect_endian` itself returns `none` for buffers shorter than 16 bytes
or lacking the magic). -/
theorem c7_endian_detection :
    (∀ buf : List Nat, 16 ≤ buf.length →
        (buf.drop 12).take 4 = [0x62, 0x31, 0x05, 0x00] →
        detect_endian buf = some .Le)
    ∧ (∀ buf : List Nat, 16 ≤ buf.length →
        (buf.drop 12).take 4 = [0x00, 0x05, 0x31, 0x62] →
        detect_endian buf = some .Be)
    ∧ (∀ buf : List Nat, 512 ≤ buf.length →
        u32e .Le (buf.drop 12) ≠ BTREE_MAGIC →
        u32e .Be (buf.drop 12) ≠ BTREE_MAGIC →
        parse_btree_meta_page0 buf = .error .magicNotFound)
    ∧ (∀ buf : List Nat, buf.length < 512 →
        parse_btree_meta_page0 buf = .error .metaPageTooSmall)
    ∧ (∀ buf : List Nat, buf.length < 16 → detect_endian buf = none) := by
  refine ⟨?_, ?_, ?_, ?_, ?_⟩
  · intro buf hlen hmagic
    have hLe : u32e .Le (buf.drop 12) = BTREE_MAGIC := by
      simp only [u32e, hmagic]
      decide
    simp [detect_endian, hLe, Nat.not_lt.mpr hlen]
  · intro buf hlen hmagic
    have hLe : u32e .Le (buf.drop 12) ≠ BTREE_MAGIC := by
      simp only [u32e, hmagic]
      decide
    have hBe : u32e .Be (buf.drop 12) = BTREE_MAGIC := by
      simp only [u32e, hmagic]
      decide
    simp [detect_endian, hLe, hBe, Nat.not_lt.mpr hlen]
  · intro buf hlen hLe hBe
    have hend : detect_endian buf = none := by
      simp [detect_endian, hLe, hBe]
    simp [parse_btree_meta_page0, hend]
    omega
  · intro buf hlen
    simp [parse_btree_meta_page0, hlen]
  · intro buf hlen
    simp [detect_endian, hlen]

/-- C7: counterexample — a 10-byte buffer holds the magic in neither
order (it cannot), yet meta-page probing fails with the too-small error,
not the magic-not-found error. -/
theorem c7_counterexample :
    parse_btree_meta_page0 (List.replicate 10 0) = .error .metaPageTooSmall ∧
      Err.metaPageTooSmall ≠ Err.magicNotFound ∧
      detect_endian (List.replicate 10 0) = none :=
  ⟨by rfl, by decide, by decide⟩

set_option maxRecDepth 8000 in
/-- C7: witness — the amended statement instantiated on concrete
buffers. -/
theorem c7_witness :
    detect_endian (List.replicate 12 0 ++ [0x62, 0x31, 0x05, 0x00]) = some .Le ∧
      detect_endian (List.replicate 12 0 ++ [0x00, 0x05, 0x31, 0x62]) = some .Be ∧
      parse_btree_meta_page0 (List.replicate 512 7) = .error .magicNotFound ∧
      parse_btree_meta_page0 (List.replicate 100 0) = .error .metaPageTooSmall ∧
      detect_endian (List.replicate 15 0) = none :=
  ⟨c7_endian_detection.1 _ (by decide) (by decide),
   c7_endian_detection.2.1 _ (by decide) (by decide),
   c7_endian_detection.2.2.1 _ (by decide) (by decide) (by decide),
   c7_endian_detection.2.2.2.1 _ (by decide),
   c7_endian_detection.2.2.2.2 _ (by decide)⟩

/-- C1: code bug — the validation loop of `leaf_pairs_on_page` prints a
diagnostic for each out-of-range slot offset but never removes it, so the
extraction loop still parses every offset: on `c1Page`, whose third slot
offset 46 fails the bounds check (46 + 3 exceeds the 48-byte page), the
whole page is voided with an error, while the two valid slots alone would
have produced the pair `([65], [66])`. -/
theorem c1_bad_slot_voids_page :
    parse_page_header c1Page .Le = .ok c1Hdr ∧
      slot_abs_offsets c1Page .Le c1Hdr.lower = [40, 44, 46] ∧
      c1Page.length < 46 + 3 ∧
      leaf_pairs_on_page [] 48 .Le c1Page c1Hdr = .err .leafHeaderOOB ∧
      pairLoop [] 48 .Le c1Page [40, 44] none = .ok [([65], [66])] :=
  ⟨by rfl, by decide, by decide, by decide, by decide⟩

/-- C8: `parse_leaf_entry` reads `len` as the u16 at `off` and the kind
byte at `off + 2`; the high bit of the kind byte is the deleted flag; low
bits 1 select the inline form `page[off+3 .. off+3+len]` (failing with
the key-data bounds error past the page), low bits 3 select an overflow
reference with `first_page` the u32 at `off + 4` and `total_len` the u32
at `off + 8` (failing when `off + 12` exceeds the page); any other kind
fails with the unknown-kind error, and `off + 3` past the page fails with
the header bounds error. -/
theorem c8_parse_leaf_entry :
    (∀ (page : List Nat) (off : Nat) (e : Endian),
        page.length < off + 3 → parse_leaf_entry page off e = .error .leafHeaderOOB)
    ∧ (∀ (page : List Nat) (off : Nat) (e : Endian), off + 3 ≤ page.length →
        page.getD (off + 2) 0 % 256 % 128 = 1 →
        (off + 3 + u16e e (page.drop off) ≤ page.length →
            parse_leaf_entry page off e =
              .ok { deleted := decide (128 ≤ page.getD (off + 2) 0 % 256),
                    item := .keyData
                      ((page.drop (off + 3)).take (u16e e (page.drop off))) })
          ∧ (page.length < off + 3 + u16e e (page.drop off) →
              parse_leaf_entry page off e = .error .keyDataOOB))
    ∧ (∀ (page : List Nat) (off : Nat) (e : Endian), off + 3 ≤ page.length →
        page.getD (off + 2) 0 % 256 % 128 = 3 →
        (off + 12 ≤ page.length →
            parse_leaf_entry page off e =
              .ok { deleted := decide (128 ≤ page.getD (off + 2) 0 % 256),
                    item := .overflow (u32e e (page.drop (off + 4)))
                                      (u32e e (page.drop (off + 8))) })
          ∧ (page.length < off + 12 →
              parse_leaf_entry page off e = .error .overflowRefOOB))
    ∧ (∀ (page : List Nat) (off : Nat) (e : Endian), off + 3 ≤ page.length →
        page.getD (off + 2) 0 % 256 % 128 ≠ 1 →
        page.getD (off + 2) 0 % 256 % 128 ≠ 3 →
        parse_leaf_entry page off e =
          .error (.unknownLeafItemKind (page.getD (off + 2) 0 % 256 % 128))) := by
  refine ⟨?_, ?_, ?_, ?_⟩
  · intro page off e h
    rw [parse_leaf_entry, if_neg (by omega)]
  · intro page off e h3 hk
    constructor
    · intro hlen
      simp only [parse_leaf_entry]
      rw [if_pos h3, if_pos hk, if_pos hlen]
    · intro hlen
      simp only [parse_leaf_entry]
      rw [if_pos h3, if_pos hk, if_neg (by omega)]
  · intro page off e h3 hk
    have hne1 : ¬(page.getD (off + 2) 0 % 256 % 128 = 1) := by omega
    constructor
    · intro hlen
      simp only [parse_leaf_entry]
      rw [if_pos h3, if_neg hne1, if_pos hk, if_pos (by omega)]
    · intro hlen
      simp only [parse_leaf_entry]
      rw [if_pos h3, if_neg hne1, if_pos hk, if_neg (by omega)]
  · intro page off e h3 h1 hk3
    simp only [parse_leaf_entry]
    rw [if_pos h3, if_neg h1, if_neg hk3]

/-- C8: witness — the four cases of `parse_leaf_entry` instantiated on
concrete entries. -/
theorem c8_witness :
    parse_leaf_entry [1, 0, 1, 65] 0 .Le = .ok { deleted := false, item := .keyData [65] } ∧
      parse_leaf_entry [0, 0, 3, 0, 9, 0, 0, 0, 100, 0, 0, 0] 0 .Le =
        .ok { deleted := false, item := .overflow 9 100 } ∧
      parse_leaf_entry [1, 0, 129, 65] 0 .Le = .ok { deleted := true, item := .keyData [65] } ∧
      parse_leaf_entry [1, 0, 5, 65] 0 .Le = .error (.unknownLeafItemKind 5) ∧
      parse_leaf_entry [1, 0] 0 .Le = .error .leafHeaderOOB := by
  refine ⟨?_, ?_, ?_, ?_, ?_⟩
  · have h := (c8_parse_leaf_entry.2.1 [1, 0, 1, 65] 0 .Le (by decide) (by decide)).1 (by decide)
    rw [h]
    rfl
  · have h := (c8_parse_leaf_entry.2.2.1 [0, 0, 3, 0, 9, 0, 0, 0, 100, 0, 0, 0] 0 .Le
      (by decide) (by decide)).1 (by decide)
    rw [h]
    rfl
  · have h := (c8_parse_leaf_entry.2.1 [1, 0, 129, 65] 0 .Le (by decide) (by decide)).1 (by decide)
    rw [h]
    rfl
  · have h := c8_parse_leaf_entry.2.2.2 [1, 0, 5, 65] 0 .Le (by decide) (by decide) (by decide)
    rw [h]
    rfl
  · exact c8_parse_leaf_entry.1 [1, 0] 0 .Le (by decide)

/-- C4: for a buffer of at least 28 bytes whose flags word's low 5 bits
denote a Leaf or Internal page, `parse_page_header` succeeds exactly when
`28 ≤ lower ≤ upper ≤ page length`, derives the slot count as
`(lower - 28) / 2`, and reports any bound violation as the
header-invariant error; a shorter buffer fails with the short-page error;
any other page type skips the bound checks and gets slot count 0. -/
theorem c4_parse_page_header :
    (∀ (page : List Nat) (e : Endian), page.length < 28 →
        parse_page_header page e = .error .shortPage)
    ∧ (∀ (page : List Nat) (e : Endian), 28 ≤ page.length →
        (PageType.from_flags (u32e e (page.drop 20)) = .Leaf ∨
          PageType.from_flags (u32e e (page.drop 20)) = .Internal) →
        ((∃ hdr, parse_page_header page e = .ok hdr) ↔
            (28 ≤ u16e e (page.drop 24) ∧
              u16e e (page.drop 24) ≤ u16e e (page.drop 26) ∧
              u16e e (page.drop 26) ≤ page.length))
          ∧ (∀ hdr, parse_page_header page e = .ok hdr →
              hdr.nslots = (u16e e (page.drop 24) - 28) / 2 ∧
                hdr.lower = u16e e (page.drop 24) ∧
                hdr.upper = u16e e (page.drop 26))
          ∧ (¬(28 ≤ u16e e (page.drop 24) ∧
                u16e e (page.drop 24) ≤ u16e e (page.drop 26) ∧
                u16e e (page.drop 26) ≤ page.length) →
              parse_page_header page e = .error .headerInvariantViolation))
    ∧ (∀ (page : List Nat) (e : Endian), 28 ≤ page.length →
        ¬(PageType.from_flags (u32e e (page.drop 20)) = .Leaf ∨
            PageType.from_flags (u32e e (page.drop 20)) = .Internal) →
        ∃ hdr, parse_page_header page e = .ok hdr ∧ hdr.nslots = 0) := by
  refine ⟨?_, ?_, ?_⟩
  · intro page e h
    rw [parse_page_header, if_pos h]
  · intro page e hlen hpt
    rw [parse_page_header, if_neg (by omega)]
    simp only [if_pos hpt]
    by_cases h1 : 28 ≤ u16e e (page.drop 24)
    · by_cases h2 : u16e e (page.drop 24) ≤ u16e e (page.drop 26)
      · by_cases h3 : u16e e (page.drop 26) ≤ page.length
        · rw [if_pos h1, if_pos h2, if_pos h3]
          refine ⟨?_, ?_, ?_⟩
          · simp [h1, h2, h3]
          · intro hdr hh
            cases hh
            exact ⟨rfl, rfl, rfl⟩
          · intro hcon
            exact absurd ⟨h1, h2, h3⟩ hcon
        · rw [if_pos h1, if_pos h2, if_neg h3]
          refine ⟨?_, ?_, ?_⟩
          · simp [h3]
          · intro hdr hh
            cases hh
          · intro _
            rfl
      · rw [if_pos h1, if_neg h2]
        refine ⟨?_, ?_, ?_⟩
        · simp [h2]
        · intro hdr hh
          cases hh
        · intro _
          rfl
    · rw [if_neg h1]
      refine ⟨?_, ?_, ?_⟩
      · simp [h1]
      · intro hdr hh
        cases hh
      · intro _
        rfl
  · intro page e hlen hpt
    rw [parse_page_header, if_neg (by omega)]
    simp only [if_neg hpt]
    exact ⟨_, rfl, rfl⟩

/-- C4: witness — the short-page, Leaf-success, Leaf-violation, and
other-type cases instantiated on concrete pages. -/
theorem c4_witness :
    parse_page_header [0, 0, 0] .Le = .error .shortPage ∧
      (∃ hdr, parse_page_header c1Page .Le = .ok hdr) ∧
      parse_page_header (List.replicate 20 0 ++ [2, 0, 0, 0, 0, 0, 0, 0]) .Le =
        .error .headerInvariantViolation ∧
      (∃ hdr, parse_page_header (List.replicate 28 0) .Le = .ok hdr ∧ hdr.nslots = 0) := by
  refine ⟨?_, ?_, ?_, ?_⟩
  · exact c4_parse_page_header.1 [0, 0, 0] .Le (by decide)
  · exact (c4_parse_page_header.2.1 c1Page .Le (by decide) (by decide)).1.mpr (by decide)
  · exact (c4_parse_page_header.2.1 _ .Le (by decide) (by decide)).2.2 (by decide)
  · exact c4_parse_page_header.2.2 _ .Le (by decide) (by decide)

lemma leBytes_length (n v : Nat) : (leBytes n v).length = n := by
  induction n generalizing v with
  | zero => rfl
  | succ n ih => simp [leBytes, ih]

lemma leBytes_take (n v : Nat) : (leBytes n v).take n = leBytes n v := by
  have h := List.take_length (leBytes n v)
  rw [leBytes_length] at h
  exact h

lemma leVal_leBytes (n v : Nat) (h : v < 256 ^ n) : leVal (leBytes n v) = v := by
  induction n generalizing v with
  | zero =>
    simp only [leBytes, leVal]
    simp only [pow_zero] at h
    omega
  | succ n ih =>
    have hdiv : v / 256 < 256 ^ n := by
      rw [Nat.div_lt_iff_lt_mul (by norm_num : (0:Nat) < 256)]
      calc v < 256 ^ (n + 1) := h
        _ = 256 ^ n * 256 := by ring
    simp only [leBytes, leVal, ih _ hdiv]
    omega

/-- C9: round trip — encoding any length below `2^64` with the
minimal-width compact-size prefix and decoding with `read_compact_size`
returns the length and the encoded width; the boundary lengths select the
prefixes 0x00–0xFC, 0xFD, 0xFD, 0xFE, 0xFE, 0xFF with widths 1, 3, 3, 5,
5, 9; and decoding consumes 1 byte for a literal first byte, 3/5/9 bytes
after a 0xFD/0xFE/0xFF prefix (little-endian payload), returning `none`
when the buffer is shorter than the indicated width. -/
theorem c9_compact_size_roundtrip :
    (∀ L : Nat, L < 2 ^ 64 →
        read_compact_size (encodeCompactSize L) = some (L, (encodeCompactSize L).length))
    ∧ (encodeCompactSize 252 = [0xfc]
        ∧ (encodeCompactSize 253).headD 0 = 0xfd ∧ (encodeCompactSize 253).length = 3
        ∧ (encodeCompactSize 65535).headD 0 = 0xfd ∧ (encodeCompactSize 65535).length = 3
        ∧ (encodeCompactSize 65536).headD 0 = 0xfe ∧ (encodeCompactSize 65536).length = 5
        ∧ (encodeCompactSize (2 ^ 32 - 1)).headD 0 = 0xfe
        ∧ (encodeCompactSize (2 ^ 32 - 1)).length = 5
        ∧ (encodeCompactSize (2 ^ 32)).headD 0 = 0xff
        ∧ (encodeCompactSize (2 ^ 32)).length = 9)
    ∧ (∀ (b : Nat) (rest : List Nat), b % 256 ≤ 0xfc →
        read_compact_size (b :: rest) = some (b % 256, 1))
    ∧ (∀ (b1 b2 : Nat) (rest : List Nat),
        read_compact_size (0xfd :: b1 :: b2 :: rest) = some (leVal [b1, b2], 3))
    ∧ (∀ (b1 b2 b3 b4 : Nat) (rest : List Nat),
        read_compact_size (0xfe :: b1 :: b2 :: b3 :: b4 :: rest)
          = some (leVal [b1, b2, b3, b4], 5))
    ∧ (∀ (b1 b2 b3 b4 b5 b6 b7 b8 : Nat) (rest : List Nat),
        read_compact_size (0xff :: b1 :: b2 :: b3 :: b4 :: b5 :: b6 :: b7 :: b8 :: rest)
          = some (leVal [b1, b2, b3, b4, b5, b6, b7, b8], 9))
    ∧ (∀ (b0 : Nat) (t : List Nat), 0xfc < b0 % 256 →
        (b0 :: t).length < (if b0 % 256 = 0xfd then 3 else if b0 % 256 = 0xfe then 5 else 9) →
        read_compact_size (b0 :: t) = none) := by
  have hfd : ∀ (b1 b2 : Nat) (rest : List Nat),
      read_compact_size (0xfd :: b1 :: b2 :: rest) = some (leVal [b1, b2], 3) := by
    intro b1 b2 rest
    simp [read_compact_size, u16e, leVal]
  have hfe : ∀ (b1 b2 b3 b4 : Nat) (rest : List Nat),
      read_compact_size (0xfe :: b1 :: b2 :: b3 :: b4 :: rest)
        = some (leVal [b1, b2, b3, b4], 5) := by
    intro b1 b2 b3 b4 rest
    simp [read_compact_size, u32e, leVal]
  have hff : ∀ (b1 b2 b3 b4 b5 b6 b7 b8 : Nat) (rest : List Nat),
      read_compact_size (0xff :: b1 :: b2 :: b3 :: b4 :: b5 :: b6 :: b7 :: b8 :: rest)
        = some (leVal [b1, b2, b3, b4, b5, b6, b7, b8], 9) := by
    intro b1 b2 b3 b4 b5 b6 b7 b8 rest
    simp [read_compact_size, u64e, leVal]
  refine ⟨?_, by decide, ?_, hfd, hfe, hff, ?_⟩
  · intro L hL
    by_cases h1 : L ≤ 0xfc
    · have henc : encodeCompactSize L = [L] := by
        rw [encodeCompactSize, if_pos h1]
      rw [henc]
      simp [read_compact_size, Nat.mod_eq_of_lt (show L < 256 by omega), h1]
    · by_cases h2 : L ≤ 0xffff
      · have henc : encodeCompactSize L = 0xfd :: leBytes 2 L := by
          rw [encodeCompactSize, if_neg h1, if_pos h2]
        have hv : leVal (leBytes 2 L) = L := leVal_leBytes 2 L (by
          have hp : (256:Nat) ^ 2 = 65536 := by norm_num
          omega)
        rw [henc]
        obtain ⟨a, b, hab⟩ : ∃ a b, leBytes 2 L = [a, b] := ⟨_, _, rfl⟩
        rw [hab]
        rw [hfd a b []]
        rw [← hab, hv]
        simp [hab]
      · by_cases h3 : L ≤ 0xffffffff
        · have henc : encodeCompactSize L = 0xfe :: leBytes 4 L := by
            rw [encodeCompactSize, if_neg h1, if_neg h2, if_pos h3]
          have hv : leVal (leBytes 4 L) = L := leVal_leBytes 4 L (by
            have hp : (256:Nat) ^ 4 = 4294967296 := by norm_num
            omega)
          rw [henc]
          obtain ⟨a, b, c, d, hab⟩ : ∃ a b c d, leBytes 4 L = [a, b, c, d] :=
            ⟨_, _, _, _, rfl⟩
          rw [hab]
          rw [hfe a b c d []]
          rw [← hab, hv]
          simp [hab]
        · have henc : encodeCompactSize L = 0xff :: leBytes 8 L := by
            rw [encodeCompactSize, if_neg h1, if_neg h2, if_neg h3]
          have hv : leVal (leBytes 8 L) = L := leVal_leBytes 8 L (by
            have hp : (256:Nat) ^ 8 = 18446744073709551616 := by norm_num
            have hq : (2:Nat) ^ 64 = 18446744073709551616 := by norm_num
            omega)
          rw [henc]
          obtain ⟨a, b, c, d, a2, b2, c2, d2, hab⟩ :
              ∃ a b c d a2 b2 c2 d2, leBytes 8 L = [a, b, c, d, a2, b2, c2, d2] :=
            ⟨_, _, _, _, _, _, _, _, rfl⟩
          rw [hab]
          rw [hff a b c d a2 b2 c2 d2 []]
          rw [← hab, hv]
          simp [hab]
  · intro b rest hb
    simp [read_compact_size, hb]
  · intro b0 t hbig hlen
    simp only [List.length_cons] at hlen
    by_cases h253 : b0 % 256 = 0xfd
    · rw [if_pos h253] at hlen
      simp [read_compact_size, h253, show ¬(b0 % 256 ≤ 0xfc) by omega]
      omega
    · by_cases h254 : b0 % 256 = 0xfe
      · rw [if_neg h253, if_pos h254] at hlen
        simp [read_compact_size, h254, show ¬(b0 % 256 ≤ 0xfc) by omega, h253]
        omega
      · have h255 : b0 % 256 = 0xff := by
          have := Nat.mod_lt b0 (show 0 < 256 by norm_num)
          omega
        rw [if_neg h253, if_neg h254] at hlen
        simp [read_compact_size, h255, show ¬(b0 % 256 ≤ 0xfc) by omega, h253, h254]
        omega

/-- C9: witness — the round trip instantiated at the length 300
(prefix 0xFD, width 3). -/
theorem c9_witness :
    read_compact_size (encodeCompactSize 300) = some (300, (encodeCompactSize 300).length) :=
  c9_compact_size_roundtrip.1 300 (by norm_num)

lemma pairLoop_eq (all : List Nat) (ps : Nat) (e : Endian) (page : List Nat) :
    ∀ (offs : List Nat) (pend : Option LeafItem) (es : List ParsedLeafEntry)
      (ms : List (List Nat)),
      parseAll page e offs = .ok es →
      materializeAll all ps e
          (pend.toList ++ (es.filter fun en => !en.deleted).map ParsedLeafEntry.item)
        = .ok ms →
      pairLoop all ps e page offs pend = .ok (pairUp ms) := by
  intro offs
  induction offs with
  | nil =>
    intro pend es ms hp hm
    simp only [parseAll] at hp
    cases hp
    cases pend with
    | none =>
      simp only [Option.toList, List.nil_append, List.filter_nil, List.map_nil,
        materializeAll] at hm
      cases hm
      rfl
    | some kitem =>
      simp only [Option.toList, List.filter_nil, List.map_nil, List.append_nil,
        materializeAll] at hm
      cases hmk : materializeItem all ps e kitem with
      | ok key =>
        rw [hmk] at hm
        simp only [RResult.bind, materializeAll] at hm
        cases hm
        rfl
      | err er => rw [hmk] at hm; simp only [RResult.bind] at hm; cases hm
      | panic => rw [hmk] at hm; simp only [RResult.bind] at hm; cases hm
      | diverge => rw [hmk] at hm; simp only [RResult.bind] at hm; cases hm
  | cons off rest ih =>
    intro pend es ms hp hm
    simp only [parseAll] at hp
    cases hpe : parse_leaf_entry page off e with
    | error er => rw [hpe] at hp; cases hp
    | ok en =>
      rw [hpe] at hp
      cases hpr : parseAll page e rest with
      | error er => rw [hpr] at hp; cases hp
      | ok t =>
        rw [hpr] at hp
        cases hp
        simp only [pairLoop, hpe]
        by_cases hdel : en.deleted = true
        · rw [if_pos hdel]
          apply ih pend t ms hpr
          simpa [List.filter_cons, hdel] using hm
        · rw [if_neg hdel]
          have hfil : ((en :: t).filter fun x => !x.deleted)
              = en :: (t.filter fun x => !x.deleted) := by
            simp [List.filter_cons, hdel]
          cases pend with
          | none =>
            apply ih (some en.item) t ms hpr
            rw [hfil] at hm
            simpa using hm
          | some kitem =>
            rw [hfil] at hm
            simp only [Option.toList, List.cons_append, List.nil_append, List.map_cons,
              materializeAll] at hm
            cases hmk : materializeItem all ps e kitem with
            | err er => rw [hmk] at hm; simp only [RResult.bind] at hm; cases hm
            | panic => rw [hmk] at hm; simp only [RResult.bind] at hm; cases hm
            | diverge => rw [hmk] at hm; simp only [RResult.bind] at hm; cases hm
            | ok key =>
              rw [hmk] at hm
              simp only [RResult.bind, materializeAll] at hm
              cases hmv : materializeItem all ps e en.item with
              | err er => rw [hmv] at hm; simp only [RResult.bind] at hm; cases hm
              | panic => rw [hmv] at hm; simp only [RResult.bind] at hm; cases hm
              | diverge => rw [hmv] at hm; simp only [RResult.bind] at hm; cases hm
              | ok val =>
                rw [hmv] at hm
                simp only [RResult.bind] at hm
                cases hms : materializeAll all ps e
                    ((t.filter fun x => !x.deleted).map ParsedLeafEntry.item) with
                | err er => rw [hms] at hm; simp only [RResult.bind] at hm; cases hm
                | panic => rw [hms] at hm; simp only [RResult.bind] at hm; cases hm
                | diverge => rw [hms] at hm; simp only [RResult.bind] at hm; cases hm
                | ok ms2 =>
                  rw [hms] at hm
                  simp only [RResult.bind] at hm
                  cases hm
                  have hrec := ih none t ms2 hpr (by simpa using hms)
                  simp only [hmk, hmv, hrec, RResult.bind, pairUp]

/-- C2: for a leaf page whose slot entries all decode (and, for overflow
items, materialize), `leaf_pairs_on_page` pairs the non-deleted entries
strictly by position — first with second, third with fourth, … — skipping
deleted entries entirely and discarding a trailing unpaired key: the
result is exactly `pairUp` of the materialized non-deleted fields. -/
theorem c2_leaf_pairing (all : List Nat) (ps : Nat) (e : Endian) (page : List Nat)
    (hdr : PageHeader) (hleaf : hdr.ptype = .Leaf)
    (es : List ParsedLeafEntry) (ms : List (List Nat))
    (hdec : parseAll page e (slot_abs_offsets page e hdr.lower) = .ok es)
    (hmat : materializeAll all ps e
        ((es.filter fun en => !en.deleted).map ParsedLeafEntry.item) = .ok ms) :
    leaf_pairs_on_page all ps e page hdr = .ok (pairUp ms) := by
  rw [leaf_pairs_on_page, if_pos hleaf]
  exact pairLoop_eq all ps e page _ none es ms hdec (by simpa using hmat)

/-- C2: witness — on `c2Page` (non-deleted inline entries
`[1], [2], [3], [4], [5]` with a deleted entry between the first two)
extraction yields exactly `([1],[2])` and `([3],[4])`, discarding the
trailing `[5]`. -/
theorem c2_witness :
    leaf_pairs_on_page [] 64 .Le c2Page c2Hdr = .ok [([1], [2]), ([3], [4])] := by
  have h := c2_leaf_pairing [] 64 .Le c2Page c2Hdr rfl
    [⟨false, .keyData [1]⟩, ⟨true, .keyData [9]⟩, ⟨false, .keyData [2]⟩,
     ⟨false, .keyData [3]⟩, ⟨false, .keyData [4]⟩, ⟨false, .keyData [5]⟩]
    [[1], [2], [3], [4], [5]]
    (by rfl) (by rfl)
  rw [h]
  rfl

lemma readGo_chain_spec (all : List Nat) (ps : Nat) (e : Endian) :
    ∀ (fuel pg rem : Nat) (acc : List Nat), 0 < rem →
      (∀ q ∈ chainVisited all ps e fuel pg rem, (headerAt all ps e q).isSome = true) →
      ((∃ out, readGo all ps e fuel pg rem acc = .ok out) ↔
          ((∀ q ∈ chainVisited all ps e fuel pg rem, overflowAt all ps e q = true) ∧
            rem ≤ ((chainVisited all ps e fuel pg rem).map
                fun q => (payloadAt all ps q).length).sum))
        ∧ (∀ out, readGo all ps e fuel pg rem acc = .ok out →
            out = acc ++ (((chainVisited all ps e fuel pg rem).map
                (payloadAt all ps)).flatten).take rem)
        ∧ ((∃ q ∈ chainVisited all ps e fuel pg rem, overflowAt all ps e q = false) →
            readGo all ps e fuel pg rem acc = .err .unexpectedPageType)
        ∧ (chainHitsZeroNext all ps e fuel pg rem = true →
            readGo all ps e fuel pg rem acc = .err .truncatedOverflowChain) := by
  intro fuel
  induction fuel with
  | zero =>
    intro pg rem acc hrem _
    refine ⟨?_, ?_, ?_, ?_⟩
    · constructor
      · rintro ⟨out, hout⟩
        simp [readGo] at hout
      · rintro ⟨_, hsum⟩
        simp only [chainVisited, List.map_nil, List.sum_nil] at hsum
        omega
    · intro out hout
      simp [readGo] at hout
    · rintro ⟨q, hq, _⟩
      simp only [chainVisited, List.not_mem_nil] at hq
    · intro h
      simp [chainHitsZeroNext] at h
  | succ fuel ih =>
    intro pg rem acc hrem hparse
    have hne : ¬(rem = 0) := by omega
    have hmem : pg ∈ chainVisited all ps e (fuel + 1) pg rem := by
      simp only [chainVisited, if_neg hne]
      exact List.mem_cons_self _ _
    have hsome := hparse pg hmem
    have hex : ∃ page hdr, page_slice all ps pg = some page ∧
        parse_page_header page e = .ok hdr := by
      cases hs : page_slice all ps pg with
      | none => simp [headerAt, hs] at hsome
      | some page =>
        cases hp : parse_page_header page e with
        | error er => simp [headerAt, hs, hp, Except.toOption] at hsome
        | ok hdr => exact ⟨page, hdr, rfl, hp⟩
    obtain ⟨page, hdr, hs, hp⟩ := hex
    have hoa : overflowAt all ps e pg = decide (hdr.ptype = PageType.Overflow) := by
      simp [overflowAt, headerAt, hs, hp, Except.toOption]
    have hpay : payloadAt all ps pg = page.drop BTDATAOFF := by
      simp [payloadAt, hs]
    by_cases hov : hdr.ptype = PageType.Overflow
    · by_cases h0 : rem - min rem (page.drop BTDATAOFF).length = 0
      · -- the remaining length is satisfied on this page
        have htk : min rem (page.drop BTDATAOFF).length = rem := by omega
        have hV : chainVisited all ps e (fuel + 1) pg rem = [pg] := by
          simp only [chainVisited, if_neg hne, hs, hp, if_pos hov, if_pos h0]
        have hR : readGo all ps e (fuel + 1) pg rem acc
            = .ok (acc ++ (page.drop BTDATAOFF).take (min rem (page.drop BTDATAOFF).length)) := by
          simp only [readGo, if_neg hne, hs, hp, if_pos hov, if_pos h0]
        have hZ : chainHitsZeroNext all ps e (fuel + 1) pg rem = false := by
          simp only [chainHitsZeroNext, if_neg hne, hs, hp, if_pos hov, if_pos h0]
        rw [hV, hR, hZ]
        refine ⟨?_, ?_, ?_, ?_⟩
        · constructor
          · rintro ⟨out, hout⟩
            refine ⟨?_, ?_⟩
            · intro q hq
              rw [List.mem_singleton] at hq
              subst hq
              rw [hoa]
              simp [hov]
            · simp only [List.map_cons, List.map_nil, List.sum_cons, List.sum_nil, hpay]
              omega
          · intro _
            exact ⟨_, rfl⟩
        · intro out hout
          cases hout
          rw [htk]
          simp [hpay]
        · rintro ⟨q, hq, hqf⟩
          rw [List.mem_singleton] at hq
          subst hq
          rw [hoa] at hqf
          simp [hov] at hqf
        · intro hfz
          simp at hfz
      · have hlt : (page.drop BTDATAOFF).length < rem := by omega
        by_cases hnx : hdr.next = 0
        · -- chain ends with bytes still needed
          have hV : chainVisited all ps e (fuel + 1) pg rem = [pg] := by
            simp only [chainVisited, if_neg hne, hs, hp, if_pos hov, if_neg h0, if_pos hnx]
          have hR : readGo all ps e (fuel + 1) pg rem acc = .err .truncatedOverflowChain := by
            simp only [readGo, if_neg hne, hs, hp, if_pos hov, if_neg h0, if_pos hnx]
          have hZ : chainHitsZeroNext all ps e (fuel + 1) pg rem = true := by
            simp only [chainHitsZeroNext, if_neg hne, hs, hp, if_pos hov, if_neg h0, if_pos hnx]
          rw [hV, hR, hZ]
          refine ⟨?_, ?_, ?_, ?_⟩
          · constructor
            · rintro ⟨out, hout⟩
              simp at hout
            · rintro ⟨_, hsum⟩
              simp only [List.map_cons, List.map_nil, List.sum_cons, List.sum_nil, hpay] at hsum
              omega
          · intro out hout
            simp at hout
          · rintro ⟨q, hq, hqf⟩
            rw [List.mem_singleton] at hq
            subst hq
            rw [hoa] at hqf
            simp [hov] at hqf
          · intro _
            rfl
        · -- follow the next pointer
          have htk : min rem (page.drop BTDATAOFF).length = (page.drop BTDATAOFF).length := by
            omega
          have hV : chainVisited all ps e (fuel + 1) pg rem
              = pg :: chainVisited all ps e fuel hdr.next
                  (rem - min rem (page.drop BTDATAOFF).length) := by
            simp only [chainVisited, if_neg hne, hs, hp, if_pos hov, if_neg h0, if_neg hnx]
          have hR : readGo all ps e (fuel + 1) pg rem acc
              = readGo all ps e fuel hdr.next (rem - min rem (page.drop BTDATAOFF).length)
                  (acc ++ (page.drop BTDATAOFF).take (min rem (page.drop BTDATAOFF).length)) := by
            simp only [readGo, if_neg hne, hs, hp, if_pos hov, if_neg h0, if_neg hnx]
          have hZ : chainHitsZeroNext all ps e (fuel + 1) pg rem
              = chainHitsZeroNext all ps e fuel hdr.next
                  (rem - min rem (page.drop BTDATAOFF).length) := by
            simp only [chainHitsZeroNext, if_neg hne, hs, hp, if_pos hov, if_neg h0, if_neg hnx]
          rw [htk] at hV hR hZ
          rw [List.take_length] at hR
          have hparse' : ∀ q ∈ chainVisited all ps e fuel hdr.next
              (rem - (page.drop BTDATAOFF).length), (headerAt all ps e q).isSome = true := by
            intro q hq
            apply hparse
            rw [hV]
            exact List.mem_cons_of_mem _ hq
          have hrem' : 0 < rem - (page.drop BTDATAOFF).length := by omega
          obtain ⟨ih1, ih2, ih3, ih4⟩ := ih hdr.next (rem - (page.drop BTDATAOFF).length)
            (acc ++ page.drop BTDATAOFF) hrem' hparse'
          rw [hV, hR, hZ]
          refine ⟨?_, ?_, ?_, ?_⟩
          · rw [ih1]
            constructor
            · rintro ⟨hall', hsum'⟩
              constructor
              · intro q hq
                rcases List.mem_cons.mp hq with rfl | hq'
                · rw [hoa]
                  simp [hov]
                · exact hall' q hq'
              · simp only [List.map_cons, List.sum_cons, hpay]
                omega
            · rintro ⟨hall, hsum⟩
              constructor
              · intro q hq
                exact hall q (List.mem_cons_of_mem _ hq)
              · simp only [List.map_cons, List.sum_cons, hpay] at hsum
                omega
          · intro out hout
            rw [ih2 out hout]
            simp only [List.map_cons, List.flatten_cons, hpay]
            rw [List.take_append_eq_append_take,
              List.take_of_length_le (by omega : (page.drop BTDATAOFF).length ≤ rem),
              ← List.append_assoc]
          · rintro ⟨q, hq, hqf⟩
            rcases List.mem_cons.mp hq with rfl | hq'
            · rw [hoa] at hqf
              simp [hov] at hqf
            · exact ih3 ⟨q, hq', hqf⟩
          · intro hz
            exact ih4 hz
    · -- a visited page that is not Overflow-typed
      have hV : chainVisited all ps e (fuel + 1) pg rem = [pg] := by
        simp only [chainVisited, if_neg hne, hs, hp, if_neg hov]
      have hR : readGo all ps e (fuel + 1) pg rem acc = .err .unexpectedPageType := by
        simp only [readGo, if_neg hne, hs, hp, if_neg hov]
      have hZ : chainHitsZeroNext all ps e (fuel + 1) pg rem = false := by
        simp only [chainHitsZeroNext, if_neg hne, hs, hp, if_neg hov]
      rw [hV, hR, hZ]
      refine ⟨?_, ?_, ?_, ?_⟩
      · constructor
        · rintro ⟨out, hout⟩
          simp at hout
        · rintro ⟨hall, _⟩
          have hq := hall pg (List.mem_singleton.mpr rfl)
          rw [hoa] at hq
          simp [hov] at hq
      · intro out hout
        simp at hout
      · intro _
        rfl
      · intro hfz
        simp at hfz

/-- C3: over a page source in which every visited page header parses and
for a positive `total_len`, `read_overflow_chain` succeeds exactly when
every visited page is Overflow-typed and the visited payload regions
supply `total_len` bytes; on success the result is the first `total_len`
bytes of the concatenation of the visited payload regions (bytes
28..page_size of each chained page) and has length `total_len`; a
non-Overflow visited page fails the read with the unexpected-page-type
error, and a zero `next` while bytes are still needed fails it with the
truncated-chain error. -/
theorem c3_read_overflow_chain (all : List Nat) (ps : Nat) (e : Endian) (r : OverflowRef)
    (htot : 0 < r.total_len)
    (hparse : ∀ pg ∈ chainV all ps e r, (headerAt all ps e pg).isSome = true) :
    ((∃ out, read_overflow_chain all ps e r = .ok out) ↔
        ((∀ pg ∈ chainV all ps e r, overflowAt all ps e pg = true) ∧
          r.total_len ≤ ((chainV all ps e r).map fun q => (payloadAt all ps q).length).sum))
    ∧ (∀ out, read_overflow_chain all ps e r = .ok out →
        out = (((chainV all ps e r).map (payloadAt all ps)).flatten).take r.total_len ∧
          out.length = r.total_len)
    ∧ ((∃ pg ∈ chainV all ps e r, overflowAt all ps e pg = false) →
        read_overflow_chain all ps e r = .err .unexpectedPageType)
    ∧ (chainHitsZeroNext all ps e (r.total_len + all.length + 2) r.first_page r.total_len
          = true →
        read_overflow_chain all ps e r = .err .truncatedOverflowChain) := by
  simp only [chainV] at hparse ⊢
  simp only [read_overflow_chain]
  obtain ⟨h1, h2, h3, h4⟩ := readGo_chain_spec all ps e (r.total_len + all.length + 2)
    r.first_page r.total_len [] htot hparse
  refine ⟨h1, ?_, h3, h4⟩
  intro out hout
  have h2' := h2 out hout
  have hsum := (h1.mp ⟨out, hout⟩).2
  rw [List.nil_append] at h2'
  refine ⟨h2', ?_⟩
  rw [h2', List.length_take, List.length_flatten, List.map_map]
  have hcomp : List.map (List.length ∘ payloadAt all ps)
      (chainVisited all ps e (r.total_len + all.length + 2) r.first_page r.total_len)
      = (chainVisited all ps e (r.total_len + all.length + 2) r.first_page
          r.total_len).map fun q => (payloadAt all ps q).length := rfl
  rw [hcomp]
  omega

/-- C3: witness — on the concrete two-page chain of `c3All` (payloads
`[10,11,12,13]` then `[20,21,22,23]`), reading 6 bytes from page 1
returns exactly the first 6 bytes of the concatenated payloads. -/
theorem c3_witness :
    read_overflow_chain c3All 32 .Le ⟨1, 6⟩ = .ok [10, 11, 12, 13, 20, 21] := by
  have h := c3_read_overflow_chain c3All 32 .Le ⟨1, 6⟩ (by norm_num) (by decide)
  obtain ⟨out, hout⟩ := h.1.mpr (by decide)
  have h2 := (h.2.1 out hout).1
  rw [hout, h2]
  decide

end WalletDb
